import Mathlib

/-!
Shallow embedding of the Label Composition Engine of `src/in.py` (a sticker
label generator).  Pure decision logic is translated directly from the source:
column-name normalization and three-tier column resolution (`find_column`),
the 300-dpi aspect-preserving logo fit (`process_uploaded_logo`), line-location
splitting (`parse_line_location`), the QR payload string, and the per-row
label / page-break loop of `generate_sticker_labels`.  Python floats are
modelled by exact rationals, Python `int()` truncation by `pyInt`, `None` and
caught exceptions by `Option`, and a pandas row by a function from column
names to `Option String` (with `none` playing the role of NaN).
-/

namespace StickerLabel

/-- From `normalize_column_name` (src/in.py:28-30): drop every character that
is not an ASCII letter or digit, then lowercase. -/
def normalize_column_name (s : String) : String :=
  String.mk ((s.toList.filter Char.isAlphanum).map Char.toLower)

/-- Python's substring test `needle in hay`. -/
def strContains (hay needle : String) : Bool :=
  (List.range (hay.toList.length + 1)).any
    (fun i => needle.toList.isPrefixOf (hay.toList.drop i))

/-- One step of building the Python dict
`{normalize_column_name(col): col for col in df.columns}`: an existing key
keeps its position but its value is overwritten, a new key is appended. -/
def insertNorm (m : List (String × String)) (k v : String) :
    List (String × String) :=
  if m.any (fun p => p.1 == k) then
    m.map (fun p => if p.1 == k then (k, v) else p)
  else
    m ++ [(k, v)]

/-- The dict `normalized_df_columns` of `find_column` (src/in.py:34), as an
insertion-ordered association list with unique keys. -/
def normMap (cols : List String) : List (String × String) :=
  cols.foldl (fun m c => insertNorm m (normalize_column_name c) c) []

/-- Dict lookup by key. -/
def lookupNorm (m : List (String × String)) (k : String) : Option String :=
  (m.find? (fun p => p.1 == k)).map (fun p => p.2)

/-- Tier 1 of `find_column` (src/in.py:37-39): first alias, in declared order,
whose normalized form is a key of the dict. -/
def exact_tier (m : List (String × String)) (names : List String) :
    Option String :=
  names.findSome? (fun a => lookupNorm m (normalize_column_name a))

/-- Tier 2 of `find_column` (src/in.py:42-45): aliases in declared order, dict
entries in insertion order, bidirectional substring containment. -/
def substring_tier (m : List (String × String)) (names : List String) :
    Option String :=
  names.findSome? (fun a =>
    (m.find? (fun p =>
      strContains p.1 (normalize_column_name a)
        || strContains (normalize_column_name a) p.1)).map (fun p => p.2))

/-- Tier 3 of `find_column` (src/in.py:48-50): the line-location keyword
heuristic.  It takes no alias list: the source runs it for every canonical
field, whatever `possible_names` was. -/
def lineloc_tier (m : List (String × String)) : Option String :=
  (m.find? (fun p =>
    (strContains p.1 "line" && strContains p.1 "location")
      || strContains p.1 "lineloc")).map (fun p => p.2)

/-- `find_column` (src/in.py:32-52): the three tiers in priority order, first
match wins, `none` when every tier misses. -/
def find_column (cols names : List String) : Option String :=
  let m := normMap cols
  match exact_tier m names with
  | some c => some c
  | none =>
    match substring_tier m names with
    | some c => some c
    | none => lineloc_tier m

/-- Resolution as the claim C1 words it: identical to `find_column` except
that the keyword heuristic tier runs only when the canonical field being
resolved is LineLocation. -/
def claimed_find_column (isLineLocationField : Bool) (cols names : List String) :
    Option String :=
  let m := normMap cols
  match exact_tier m names with
  | some c => some c
  | none =>
    match substring_tier m names with
    | some c => some c
    | none => if isLineLocationField then lineloc_tier m else none

/-- The canonical fields, keyed as in `column_mappings`
(src/in.py:155-171). -/
inductive CanonicalKey where
  | assly
  | partNo
  | description
  | partPerVeh
  | typeKey
  | lineLocation
deriving DecidableEq

/-- The alias table `column_mappings` of `generate_sticker_labels`
(src/in.py:155-171), verbatim. -/
def column_mappings : CanonicalKey → List String
  | .assly => ["assly", "ASSY NAME", "Assy Name", "assy name", "assyname",
      "assy_name", "Assy_name", "Assembly", "Assembly Name", "ASSEMBLY",
      "Assembly_Name"]
  | .partNo => ["PARTNO", "PARTNO.", "Part No", "Part Number", "PartNo",
      "partnumber", "part no", "partnum", "PART", "part", "Product Code",
      "Item Number", "Item ID", "Item No", "item", "Item"]
  | .description => ["DESCRIPTION", "Description", "Desc", "Part Description",
      "ItemDescription", "item description", "Product Description",
      "Item Description", "NAME", "Item Name", "Product Name"]
  | .partPerVeh => ["QYT", "QTY / VEH", "Qty/Veh", "Qty Bin",
      "Quantity per Bin", "qty bin", "qtybin", "quantity bin", "BIN QTY",
      "BINQTY", "QTY_BIN", "QTY_PER_BIN", "Bin Quantity", "BIN"]
  | .typeKey => ["TYPE", "type", "Type", "tyPe", "Type name"]
  | .lineLocation => ["LINE LOCATION", "Line Location", "line location",
      "LINELOCATION", "linelocation", "Line_Location", "line_location",
      "LINE_LOCATION", "LineLocation", "line_loc", "lineloc", "LINELOC",
      "Line Loc"]

/-- The per-dataset resolved schema: `found_columns` of src/in.py:174-178,
as a partial lookup. -/
def resolvedSchema (cols : List String) : CanonicalKey → Option String :=
  fun k => find_column cols (column_mappings k)

/-- A data row: the cell accessor of spec section 6, `none` standing for a
missing / NaN cell. -/
def Row : Type := String → Option String

/-- Python's `str()` applied to a cell: NaN prints as "nan". -/
def pyStr : Option String → String
  | none => "nan"
  | some s => s

/-- Python's `str.split(sep)` for a one-character separator, over character
lists. -/
def pySplit (sep : Char) (l : List Char) : List (List Char) :=
  l.foldr
    (fun c acc =>
      if c = sep then [] :: acc
      else
        match acc with
        | [] => [[c]]
        | a :: rest => (c :: a) :: rest)
    [[]]

/-- `parse_line_location` (src/in.py:140-147): split on "_", truncate to 4,
pad with empty strings. -/
def parse_line_location (s : String) : List String :=
  if s = "" then ["", "", "", ""]
  else
    let parts := (pySplit '_' s.toList).map String.mk
    ((parts.take 4) ++ List.replicate (4 - parts.length) "").take 4

/-- The QR payload of src/in.py:288-295: three mandatory lines, optional
lines only when their value is non-empty (Python truthiness), and a final
Date line with no newline after it. -/
def buildQr (asslyV partNoV descV partPerVehV typeV lineLocV dateV : String) :
    String :=
  "ASSLY: " ++ asslyV ++ "\n" ++ "Part No: " ++ partNoV ++ "\n"
      ++ "Description: " ++ descV ++ "\n"
    ++ (if partPerVehV = "" then "" else "QTY/VEH: " ++ partPerVehV ++ "\n")
    ++ (if typeV = "" then "" else "Type: " ++ typeV ++ "\n")
    ++ (if lineLocV = "" then "" else "Line Location: " ++ lineLocV ++ "\n")
    ++ ("Date: " ++ dateV)

/-- The payload as a list of lines; joining them with a single newline between
consecutive lines reproduces `buildQr` (claim C3). -/
def qr_lines (asslyV partNoV descV partPerVehV typeV lineLocV dateV : String) :
    List String :=
  ["ASSLY: " ++ asslyV, "Part No: " ++ partNoV, "Description: " ++ descV]
    ++ (if partPerVehV = "" then [] else ["QTY/VEH: " ++ partPerVehV])
    ++ (if typeV = "" then [] else ["Type: " ++ typeV])
    ++ (if lineLocV = "" then [] else ["Line Location: " ++ lineLocV])
    ++ ["Date: " ++ dateV]

/-- Newline join without a trailing newline. -/
def joinLines : List String → String
  | [] => ""
  | [s] => s
  | s :: rest => s ++ "\n" ++ joinLines rest

/-- Python `int()` on a rational (truncation toward zero).  `Rat.floor` is
used rather than the `Int.floor` notation so that the definition evaluates
inside the kernel. -/
def pyInt (q : ℚ) : ℤ :=
  if q < 0 then -((-q).floor) else q.floor

/-- `int(x_cm * dpi / 2.54)` of src/in.py:71-72. -/
def cmToPx (x dpi : ℚ) : ℤ :=
  pyInt (x * dpi / 2.54)

/-- The pixel-level aspect fit of src/in.py:77-88, returning
`(new_width, new_height)`. -/
def fit_px (w h : ℕ) (boxW boxH : ℤ) : ℤ × ℤ :=
  if (w : ℚ) / (h : ℚ) > (boxW : ℚ) / (boxH : ℚ) then
    (boxW, pyInt ((boxW : ℚ) / ((w : ℚ) / (h : ℚ))))
  else
    (pyInt ((boxH : ℚ) * ((w : ℚ) / (h : ℚ))), boxH)

/-- `process_uploaded_logo` (src/in.py:54-111), reduced to its decision core:
the source image's pixel size and the target box in centimetres go in, the
resized pixel dimensions come out.  Everything the bare `except` of
src/in.py:109-111 can catch becomes a `none` guard: the two Python divisions
that raise `ZeroDivisionError` (`orig_width / orig_height` and
`box_width_px / box_height_px`), and the `ValueError: height and width must
be > 0` that Pillow's `resize` (src/in.py:91; `PILImage.Resampling.LANCZOS`
pins Pillow at 9.1 or newer) raises when a computed dimension is below one
pixel.  The last guard also covers the corner where `aspect_ratio` is `0.0`
and Python would instead raise `ZeroDivisionError` at
`box_width_px / aspect_ratio`: there the model's computed height is `0`, so
the observable outcome (`None`) agrees.  Image decoding, resampling and PNG
re-encoding are otherwise external collaborators with no decision logic. -/
def process_uploaded_logo (w h : ℕ) (targetWcm targetHcm : ℚ) :
    Option (ℤ × ℤ) :=
  let dpi : ℚ := 300
  let boxW := cmToPx targetWcm dpi
  let boxH := cmToPx targetHcm dpi
  if h = 0 then none
  else if boxH = 0 then none
  else
    let p := fit_px w h boxW boxH
    if p.1 < 1 ∨ p.2 < 1 then none
    else some p

/-- Content of one table cell of the label. -/
inductive Cell where
  | image (dims : ℤ × ℤ)
  | text (s : String)
deriving DecidableEq

/-- One resolved label row: the extracted field values, the parsed location
boxes, the first-box content (`first_box_logo if first_box_logo else ""`,
src/in.py:317) and the QR payload of src/in.py:279-295. -/
structure LabelData where
  firstBox : Cell
  asslyV : String
  partNoV : String
  descV : String
  partPerVehV : String
  typeV : String
  lineLocV : String
  locationBoxes : List String
  qrData : String
deriving DecidableEq

/-- Mandatory-field extraction (src/in.py:279-281): no NaN check, so a NaN
cell prints as "nan"; an unresolved column gives "N/A". -/
def getField (fc : CanonicalKey → Option String) (row : Row)
    (k : CanonicalKey) : String :=
  match fc k with
  | some col => pyStr (row col)
  | none => "N/A"

/-- Optional-field extraction (src/in.py:282-284): `pd.notna` guard, NaN or
unresolved column both give the empty string. -/
def getOptField (fc : CanonicalKey → Option String) (row : Row)
    (k : CanonicalKey) : String :=
  match fc k with
  | some col =>
    match row col with
    | some s => s
    | none => ""
  | none => ""

/-- Build one label from one row (src/in.py:276-328). -/
def mkLabel (logo : Option (ℤ × ℤ)) (fc : CanonicalKey → Option String)
    (dateV : String) (row : Row) : LabelData :=
  let a := getField fc row .assly
  let p := getField fc row .partNo
  let d := getField fc row .description
  let q := getOptField fc row .partPerVeh
  let t := getOptField fc row .typeKey
  let l := getOptField fc row .lineLocation
  { firstBox := match logo with
      | some dims => Cell.image dims
      | none => Cell.text ""
    asslyV := a
    partNoV := p
    descV := d
    partPerVehV := q
    typeV := t
    lineLocV := l
    locationBoxes := parse_line_location l
    qrData := buildQr a p d q t l dateV }

/-- One entry of the flowable list handed to the PDF backend: a whole label
(its four tables) or a page break. -/
inductive Element where
  | label (l : LabelData)
  | pageBreak
deriving DecidableEq

/-- Project a label out of an element. -/
def getLabel : Element → Option LabelData
  | .label l => some l
  | .pageBreak => none

/-- The row loop of src/in.py:273-433: one label per row in row order, and a
`PageBreak()` after every label whose index satisfies
`index < len(df) - 1`. -/
def generateElements (logo : Option (ℤ × ℤ)) (fc : CanonicalKey → Option String)
    (dateV : String) (rows : List Row) : List Element :=
  ((rows.enum).map (fun p =>
    Element.label (mkLabel logo fc dateV p.2)
      :: (if p.1 < rows.length - 1 then [Element.pageBreak] else []))).flatten

/-- A text style as far as sizing is concerned. -/
structure TextStyle where
  fontSize : ℚ
  lineHeight : ℚ

/-- Modelled from the spec: `TextMeasurer.measure` (spec section 4.2).
`src/in.py` contains no text measurement of its own (its row heights are the
fixed constants of src/in.py:303-308, see `codeRowHeights`); the spec
delegates glyph wrapping to the external rendering backend, abstracted here
as a wrapped-line count, with the empty string wrapping to no lines, and the
engine owns only the one-line floor. -/
def measure (wrapCount : String → ℚ → ℕ) (text : String) (style : TextStyle)
    (availableWidth : ℚ) : ℚ :=
  max style.lineHeight
    (((if text = "" then 0 else wrapCount text availableWidth) : ℕ)
      * style.lineHeight)

/-- The fixed row heights of src/in.py:303-308 and 347, in centimetres:
0.85, 0.8, 0.5, then 0.6 three times, then 0.5. -/
def codeRowHeights : List ℚ :=
  [17/20, 4/5, 1/2, 3/5, 3/5, 3/5, 1/2]

/-- Bridge between the executable `Rat.floor` and the `Int.floor` of order
theory. -/
lemma ratFloor_eq_intFloor (q : ℚ) : q.floor = ⌊q⌋ := by
  rw [Rat.floor_def, Rat.floor_def']

/-- On nonnegative arguments Python `int()` is the floor. -/
lemma pyInt_eq_floor (q : ℚ) (h : 0 ≤ q) : pyInt q = ⌊q⌋ := by
  unfold pyInt
  rw [if_neg (not_lt.mpr h), ratFloor_eq_intFloor]

/-- A constant zero wrapped-line count, used to instantiate `measure`. -/
def constWrapZero : String → ℚ → ℕ := fun _ _ => 0

/-- C4: `parse_line_location` always yields exactly 4 strings - splitting on
the underscore delimiter, truncating extra segments and padding missing ones
with empty strings at the end - and the four example inputs of the claim
evaluate exactly as stated. -/
theorem c4_parse_location_four (s : String) :
    (parse_line_location s).length = 4
      ∧ parse_line_location "A1_B2_C3_D4" = ["A1", "B2", "C3", "D4"]
      ∧ parse_line_location "A1_B2" = ["A1", "B2", "", ""]
      ∧ parse_line_location "" = ["", "", "", ""]
      ∧ parse_line_location "A1_B2_C3_D4_E5" = ["A1", "B2", "C3", "D4"] := by
  refine ⟨?_, by decide, by decide, by decide, by decide⟩
  unfold parse_line_location
  split
  · rfl
  · simp only [List.length_take, List.length_append, List.length_replicate]
    omega

/-- C3 counterexample: an empty mandatory field is NOT skipped by the payload
builder - with an empty Assembly value the code still emits an "ASSLY: " line,
where the claim ("skips absent or empty fields entirely") predicts the line
would be dropped. -/
theorem c3_counterexample :
    buildQr "" "P1" "D" "" "" "" "01-01-2024"
        = "ASSLY: \nPart No: P1\nDescription: D\nDate: 01-01-2024"
      ∧ buildQr "" "P1" "D" "" "" "" "01-01-2024"
        ≠ "Part No: P1\nDescription: D\nDate: 01-01-2024" :=
  ⟨by decide, by decide⟩

/-- C3 amended: the payload is the newline-join (no trailing newline) of, in
fixed declared order, the three mandatory lines - emitted even when their
value is empty - then one line per non-empty optional field (QTY/VEH, Type,
Line Location), then the final Date line; and the claim's example evaluates
exactly as stated. -/
theorem c3_payload_shape (a p d q t l dateV : String) :
    buildQr a p d q t l dateV = joinLines (qr_lines a p d q t l dateV)
      ∧ buildQr "X" "P1" "D" "" "" "" "01-01-2024"
        = "ASSLY: X\nPart No: P1\nDescription: D\nDate: 01-01-2024" := by
  refine ⟨?_, by decide⟩
  unfold buildQr qr_lines
  split_ifs <;>
    simp only [joinLines, List.cons_append, List.nil_append, List.append_nil,
      String.append_assoc, String.append_empty, String.empty_append]

/-- C10: the pixel-level fit of src/in.py:77-88 is maximal on one axis - for
positive source and target pixel dimensions, the new width equals the box
width or the new height equals the box height. -/
theorem c10_fit_touches_box (w h : ℕ) (boxW boxH : ℤ)
    (hw : 0 < w) (hh : 0 < h) (hW : 0 < boxW) (hH : 0 < boxH) :
    (fit_px w h boxW boxH).1 = boxW ∨ (fit_px w h boxW boxH).2 = boxH := by
  unfold fit_px
  split
  · exact Or.inl rfl
  · exact Or.inr rfl

/-- Witness for C10 at a concrete input. -/
theorem c10_witness :
    (fit_px 200 100 118 118).1 = 118 ∨ (fit_px 200 100 118 118).2 = 118 :=
  c10_fit_touches_box 200 100 118 118 (by norm_num) (by norm_num)
    (by norm_num) (by norm_num)

/-- C9 (TextMeasurer modelled from the spec, src/in.py itself uses the fixed
positive row heights of `codeRowHeights`): measurement is floored at one
line's height, the empty string measures exactly the style's line height, and
no row of the label has zero height. -/
theorem c9_measure_floor (wrapCount : String → ℚ → ℕ) (style : TextStyle)
    (availableWidth : ℚ) (hpos : 0 < style.lineHeight) :
    measure wrapCount "" style availableWidth = style.lineHeight
      ∧ (∀ t, style.lineHeight ≤ measure wrapCount t style availableWidth)
      ∧ ∀ rh ∈ codeRowHeights, 0 < rh := by
  refine ⟨?_, fun t => le_max_left _ _, by norm_num [codeRowHeights]⟩
  unfold measure
  rw [if_pos rfl]
  push_cast
  rw [zero_mul]
  exact max_eq_left hpos.le

/-- Witness for C9 at a concrete style. -/
theorem c9_witness :
    measure constWrapZero "" ⟨10, 12⟩ 5 = (12 : ℚ) :=
  (c9_measure_floor constWrapZero ⟨10, 12⟩ 5 (by norm_num)).1

/-- C1 counterexample: the keyword-heuristic tier is NOT restricted to
LineLocation.  Resolving the Type field over the single raw column
"LINE LOCATION" binds that column through the heuristic (no exact or
substring match exists), while the claim's LineLocation-only resolution
leaves Type unresolved. -/
theorem c1_counterexample :
    find_column ["LINE LOCATION"] (column_mappings CanonicalKey.typeKey)
        = some "LINE LOCATION"
      ∧ claimed_find_column false ["LINE LOCATION"]
          (column_mappings CanonicalKey.typeKey) = none :=
  ⟨by decide, by decide⟩

/-- C1 amended: resolution checks three tiers in fixed priority order with
first match winning - exact normalized match, then bidirectional substring
match, then the line-location keyword heuristic, the last applied for every
canonical field (`lineloc_tier` takes no alias list at all); a field is
unresolved exactly when all three tiers miss. -/
theorem c1_three_tiers (cols names : List String) :
    (find_column cols names = none
        ↔ exact_tier (normMap cols) names = none
          ∧ substring_tier (normMap cols) names = none
          ∧ lineloc_tier (normMap cols) = none)
      ∧ (∀ r, exact_tier (normMap cols) names = some r
          → find_column cols names = some r)
      ∧ (exact_tier (normMap cols) names = none
          → ∀ r, substring_tier (normMap cols) names = some r
            → find_column cols names = some r)
      ∧ (exact_tier (normMap cols) names = none
          → substring_tier (normMap cols) names = none
          → find_column cols names = lineloc_tier (normMap cols)) := by
  cases h1 : exact_tier (normMap cols) names <;>
    cases h2 : substring_tier (normMap cols) names <;>
      simp [find_column, h1, h2]

/-- Witness for C1: with both higher tiers missing, resolving the Assembly
aliases over a lone line-location column falls through to the heuristic
tier. -/
theorem c1_witness :
    find_column ["LINE LOCATION"] (column_mappings CanonicalKey.assly)
      = lineloc_tier (normMap ["LINE LOCATION"]) :=
  (c1_three_tiers ["LINE LOCATION"] (column_mappings CanonicalKey.assly)).2.2.2
    (by decide) (by decide)

lemma insertNorm_inv (m : List (String × String)) (c : String)
    (hm : ∀ p ∈ m, normalize_column_name p.2 = p.1) :
    ∀ p ∈ insertNorm m (normalize_column_name c) c,
      normalize_column_name p.2 = p.1 := by
  intro p hp
  unfold insertNorm at hp
  split at hp
  · rcases List.mem_map.mp hp with ⟨q, hq, rfl⟩
    by_cases hqk : (q.1 == normalize_column_name c) = true
    · simp [hqk]
    · simp only [hqk, if_false]
      exact hm q hq
  · rcases List.mem_append.mp hp with hin | hin
    · exact hm p hin
    · simp only [List.mem_singleton] at hin
      subst hin
      rfl

lemma insertNorm_key_mem (m : List (String × String)) (k v key : String)
    (h : ∃ p ∈ m, p.1 = key) : ∃ p ∈ insertNorm m k v, p.1 = key := by
  rcases h with ⟨q, hq, hkey⟩
  unfold insertNorm
  split
  · by_cases hqk : (q.1 == k) = true
    · refine ⟨(k, v), List.mem_map.mpr ⟨q, hq, by simp [hqk]⟩, ?_⟩
      have : q.1 = k := by simpa using hqk
      rw [← this, hkey]
    · exact ⟨q, List.mem_map.mpr ⟨q, hq, by simp [hqk]⟩, hkey⟩
  · exact ⟨q, List.mem_append_left _ hq, hkey⟩

lemma insertNorm_key_self (m : List (String × String)) (k v : String) :
    ∃ p ∈ insertNorm m k v, p.1 = k := by
  unfold insertNorm
  split
  · rename_i hany
    rcases List.any_eq_true.mp hany with ⟨q, hq, hqk⟩
    exact ⟨(k, v), List.mem_map.mpr ⟨q, hq, by simp [hqk]⟩, rfl⟩
  · exact ⟨(k, v), List.mem_append_right _ (by simp), rfl⟩

lemma normMap_aux_inv (cols : List String) :
    ∀ (m : List (String × String)),
      (∀ p ∈ m, normalize_column_name p.2 = p.1) →
      ∀ p ∈ cols.foldl
          (fun m c => insertNorm m (normalize_column_name c) c) m,
        normalize_column_name p.2 = p.1 := by
  induction cols with
  | nil => intro m hm; simpa using hm
  | cons c cs ih =>
    intro m hm
    exact ih _ (insertNorm_inv m c hm)

/-- Every entry of the normalization dict maps the normalized form of its
value to that value. -/
lemma normMap_inv (cols : List String) :
    ∀ p ∈ normMap cols, normalize_column_name p.2 = p.1 :=
  normMap_aux_inv cols [] (by simp)

lemma normMap_aux_key (cols : List String) :
    ∀ (m : List (String × String)) (key : String),
      ((∃ p ∈ m, p.1 = key) ∨ ∃ c ∈ cols, normalize_column_name c = key) →
      ∃ p ∈ cols.foldl
          (fun m c => insertNorm m (normalize_column_name c) c) m,
        p.1 = key := by
  induction cols with
  | nil =>
    intro m key h
    simpa using h.resolve_right (by simp)
  | cons c cs ih =>
    intro m key h
    refine ih _ key ?_
    rcases h with hin | ⟨c2, hc2, hkey⟩
    · exact Or.inl (insertNorm_key_mem _ _ _ _ hin)
    · rcases List.mem_cons.mp hc2 with rfl | hc2tail
      · exact Or.inl (hkey ▸ insertNorm_key_self m (normalize_column_name c2) c2)
      · exact Or.inr ⟨c2, hc2tail, hkey⟩

/-- Every raw column contributes its normalized form as a dict key. -/
lemma normMap_key (cols : List String) (c : String) (h : c ∈ cols) :
    ∃ p ∈ normMap cols, p.1 = normalize_column_name c :=
  normMap_aux_key cols [] _ (Or.inr ⟨c, h, rfl⟩)

lemma lookupNorm_ne_none_of_key (m : List (String × String)) (key : String)
    (h : ∃ p ∈ m, p.1 = key) : lookupNorm m key ≠ none := by
  rcases h with ⟨p, hp, hkey⟩
  unfold lookupNorm
  intro hcon
  rcases Option.map_eq_none.mp hcon with hfind
  have := List.find?_eq_none.mp hfind p hp
  simp [hkey] at this

lemma lookupNorm_some (m : List (String × String)) (key r : String)
    (h : lookupNorm m key = some r) : ∃ p ∈ m, p.1 = key ∧ p.2 = r := by
  unfold lookupNorm at h
  cases hfind : m.find? (fun p => p.1 == key) with
  | none => rw [hfind] at h; cases h
  | some q =>
    rw [hfind] at h
    have hq1 := List.find?_some hfind
    have hqm : q ∈ m := List.mem_of_find?_eq_some hfind
    refine ⟨q, hqm, by simpa using hq1, ?_⟩
    simpa using h

/-- C7 counterexample: "Part-Number" differs from the declared alias
"Part Number" only in punctuation, yet over the columns
["PARTNO", "Part-Number"] resolution binds "PARTNO" (an earlier alias wins),
not "Part-Number" - so a qualifying raw column is not necessarily the one
bound, refuting the claim's universally quantified "binds that raw
column". -/
theorem c7_counterexample :
    find_column ["PARTNO", "Part-Number"] (column_mappings CanonicalKey.partNo)
        = some "PARTNO"
      ∧ normalize_column_name "Part-Number"
          ∈ (column_mappings CanonicalKey.partNo).map normalize_column_name
      ∧ ("PARTNO" : String) ≠ "Part-Number" :=
  ⟨by decide, by decide, by decide⟩

/-- C7 amended: whenever some raw column name equals some declared alias
after normalization (case / punctuation stripped), resolution succeeds at the
exact-match tier, and the bound column's normalized form equals a normalized
alias - though with several qualifying columns the alias declaration order
and dict overwrite rule pick which one. -/
theorem c7_exact_tier_binding (cols names : List String)
    (h : ∃ c ∈ cols,
      normalize_column_name c ∈ names.map normalize_column_name) :
    ∃ r, exact_tier (normMap cols) names = some r
      ∧ find_column cols names = some r
      ∧ normalize_column_name r ∈ names.map normalize_column_name := by
  rcases h with ⟨c, hc, hcn⟩
  rcases List.mem_map.mp hcn with ⟨a, ha, hna⟩
  have hkey : ∃ p ∈ normMap cols, p.1 = normalize_column_name a := by
    rw [hna]
    exact normMap_key cols c hc
  have hne : exact_tier (normMap cols) names ≠ none := by
    intro hcon
    unfold exact_tier at hcon
    exact lookupNorm_ne_none_of_key _ _ hkey
      (List.findSome?_eq_none_iff.mp hcon a ha)
  rcases Option.ne_none_iff_exists.mp hne with ⟨r, hr⟩
  have hex : exact_tier (normMap cols) names = some r := hr.symm
  refine ⟨r, hex, by simp [find_column, hex], ?_⟩
  unfold exact_tier at hex
  rcases List.findSome?_eq_some_iff.mp hex with ⟨l₁, a2, l₂, hsplit, hfa, hnone⟩
  have ha2 : a2 ∈ names := by
    rw [hsplit]
    exact List.mem_append_right _ (List.mem_cons_self _ _)
  rcases lookupNorm_some _ _ _ hfa with ⟨p, hpm, hpk, hpv⟩
  have hnr : normalize_column_name r = p.1 := by
    rw [← hpv]
    exact normMap_inv cols p hpm
  rw [hnr, hpk]
  exact List.mem_map_of_mem _ ha2

/-- Witness for C7: the lone column "Part-Number" is bound at the exact
tier. -/
theorem c7_witness :
    find_column ["Part-Number"] (column_mappings CanonicalKey.partNo)
      ≠ none := by
  obtain ⟨r, h1, h2, h3⟩ :=
    c7_exact_tier_binding ["Part-Number"] (column_mappings CanonicalKey.partNo)
      ⟨"Part-Number", by decide, by decide⟩
  rw [h2]
  exact Option.some_ne_none r

lemma flatten_enumFrom_eq_intersperse {α β : Type} (f : α → β) (pb : β) :
    ∀ (rs : List α) (n N : ℕ), n + rs.length = N →
      ((List.enumFrom n rs).map
          (fun p => f p.2 :: (if p.1 < N - 1 then [pb] else []))).flatten
        = List.intersperse pb (rs.map f) := by
  intro rs
  induction rs with
  | nil => intro n N h; simp
  | cons r rest ih =>
    intro n N h
    cases rest with
    | nil =>
      have hcond : ¬ (n < N - 1) := by
        simp only [List.length_cons, List.length_nil] at h
        omega
      simp [List.enumFrom, hcond]
    | cons r2 rest2 =>
      have hcond : n < N - 1 := by
        simp only [List.length_cons] at h
        omega
      have hrec := ih (n + 1) N (by
        simp only [List.length_cons] at h ⊢
        omega)
      rw [show List.enumFrom n (r :: r2 :: rest2)
          = (n, r) :: List.enumFrom (n + 1) (r2 :: rest2) from rfl]
      simp only [List.map_cons, List.flatten_cons, hrec, if_pos hcond,
        List.cons_append, List.singleton_append, List.nil_append,
        List.intersperse_cons_cons]

lemma filterMap_getLabel_intersperse (ls : List LabelData) :
    (List.intersperse Element.pageBreak (ls.map Element.label)).filterMap
      getLabel = ls := by
  induction ls with
  | nil => simp
  | cons x t ih =>
    cases t with
    | nil => simp [getLabel]
    | cons y t2 =>
      rw [List.map_cons, List.map_cons, List.intersperse_cons_cons]
      rw [List.map_cons] at ih
      simp only [List.filterMap_cons, getLabel] at ih ⊢
      simpa using ih

lemma map_fun_const_eq_replicate {α β : Type} (b : β) (l : List α) :
    l.map (fun _ => b) = List.replicate l.length b := by
  induction l with
  | nil => rfl
  | cons x t ih => simp [ih, List.replicate_succ]

lemma generateElements_eq_intersperse (logo : Option (ℤ × ℤ))
    (fc : CanonicalKey → Option String) (dateV : String) (rows : List Row) :
    generateElements logo fc dateV rows
      = List.intersperse Element.pageBreak
          (rows.map (fun r => Element.label (mkLabel logo fc dateV r))) := by
  unfold generateElements
  rw [show rows.enum = List.enumFrom 0 rows from rfl]
  have hgen := flatten_enumFrom_eq_intersperse
    (fun r => Element.label (mkLabel logo fc dateV r)) Element.pageBreak
    rows 0 rows.length (Nat.zero_add _)
  simpa using hgen

/-- C6 counterexample: a target box of positive area (1 cm by 0.003 cm) over
a perfectly good 100 by 100 source still fails, because the box height
converts to zero pixels at 300 dpi - refuting "fails exactly when the source
has zero dimensions or the target box has zero area". -/
theorem c6_counterexample :
    process_uploaded_logo 100 100 1 (3/1000) = none
      ∧ (0:ℚ) < 1 * (3/1000) ∧ (100:ℕ) ≠ 0 := by
  refine ⟨?_, by norm_num, by norm_num⟩
  norm_num [process_uploaded_logo, cmToPx, fit_px, pyInt, ratFloor_eq_intFloor]

/-- C6 amended: the logo fit fails (returns no image, the caught-exception
path of the source) exactly when the source height is zero, the target box
height converts to zero pixels at 300 dpi (the two division guards), or a
computed output dimension falls below one pixel (Pillow's resize guard -
tripped for example by a zero-width box, or by a 1000 by 1 source in a 1 cm
square box); such a failure is non-fatal: with no logo, every generated
label still renders, its first box holding the empty text cell. -/
theorem c6_logo_failure_guards (w h : ℕ) (tw th : ℚ) :
    (process_uploaded_logo w h tw th = none
        ↔ h = 0 ∨ cmToPx th 300 = 0
          ∨ (fit_px w h (cmToPx tw 300) (cmToPx th 300)).1 < 1
          ∨ (fit_px w h (cmToPx tw 300) (cmToPx th 300)).2 < 1)
      ∧ ∀ (cols : List String) (rows : List Row) (dateV : String),
          ((generateElements none (resolvedSchema cols) dateV rows).filterMap
              getLabel).map LabelData.firstBox
            = List.replicate rows.length (Cell.text "") := by
  constructor
  · simp only [process_uploaded_logo]
    split_ifs with h1 h2 h3
    · exact iff_of_true rfl (Or.inl h1)
    · exact iff_of_true rfl (Or.inr (Or.inl h2))
    · exact iff_of_true rfl (Or.inr (Or.inr h3))
    · refine iff_of_false (by simp) ?_
      intro hcon
      rcases hcon with hc | hc | hc
      exacts [h1 hc, h2 hc, h3 hc]
  · intro cols rows dateV
    rw [generateElements_eq_intersperse]
    rw [show rows.map (fun r =>
          Element.label (mkLabel none (resolvedSchema cols) dateV r))
        = (rows.map (mkLabel none (resolvedSchema cols) dateV)).map
            Element.label from (List.map_map _ _ _).symm]
    rw [filterMap_getLabel_intersperse]
    rw [List.map_map]
    rw [show ((fun l => LabelData.firstBox l)
          ∘ mkLabel none (resolvedSchema cols) dateV)
        = fun _ => Cell.text "" from funext (fun r => rfl)]
    rw [map_fun_const_eq_replicate]

/-- Witness for C6: a zero-height source image fails the first guard. -/
theorem c6_witness : process_uploaded_logo 100 0 1 1 = none :=
  ((c6_logo_failure_guards 100 0 1 1).1).mpr (Or.inl rfl)

/-- C2 counterexample: a source of positive pixel dimensions and a target box
of positive physical dimensions (1 cm by 0.001 cm) for which the fit returns
no dimensions at all (the sub-pixel box height trips the division guard),
refuting the claim's unconditional "returns render dimensions". -/
theorem c2_counterexample :
    process_uploaded_logo 100 100 1 (1/1000) = none
      ∧ (0:ℚ) < 1/1000 ∧ (0:ℕ) < 100 := by
  refine ⟨?_, by norm_num, by norm_num⟩
  norm_num [process_uploaded_logo, cmToPx, fit_px, pyInt, ratFloor_eq_intFloor]

/-- C2 amended: whenever the fit succeeds on a positive source and a positive
target box (so the box height is at least one pixel at the fixed 300 dpi and
the computed output clears Pillow's one-pixel resize guard), the render
dimensions converted back to centimetres are at most the target box in both
axes, and the pixel aspect ratio matches the source up to integer pixel
rounding: the cross-product deviation `|nw * h - nh * w|` stays below one
source pixel row / column (`max w h`), which is the claim's epsilon. -/
theorem c2_fit_bounds (w h : ℕ) (tw th : ℚ) (nw nh : ℤ)
    (hw : 0 < w) (hh : 0 < h) (htw : 0 < tw) (hth : 0 < th)
    (hfit : process_uploaded_logo w h tw th = some (nw, nh)) :
    (nw : ℚ) * 2.54 / 300 ≤ tw ∧ (nh : ℚ) * 2.54 / 300 ≤ th
      ∧ (nw * (h : ℤ) - nh * (w : ℤ)).natAbs < max w h := by
  have hwQ : (0:ℚ) < (w:ℚ) := by exact_mod_cast hw
  have hhQ : (0:ℚ) < (h:ℚ) := by exact_mod_cast hh
  have hq_tw : (0:ℚ) ≤ tw * 300 / 2.54 :=
    div_nonneg (mul_nonneg htw.le (by norm_num)) (by norm_num)
  have hq_th : (0:ℚ) ≤ th * 300 / 2.54 :=
    div_nonneg (mul_nonneg hth.le (by norm_num)) (by norm_num)
  simp only [process_uploaded_logo] at hfit
  rw [if_neg hh.ne'] at hfit
  by_cases hH0 : cmToPx th 300 = 0
  · rw [if_pos hH0] at hfit
    cases hfit
  rw [if_neg hH0] at hfit
  by_cases hres : (fit_px w h (cmToPx tw 300) (cmToPx th 300)).1 < 1
      ∨ (fit_px w h (cmToPx tw 300) (cmToPx th 300)).2 < 1
  · rw [if_pos hres] at hfit
    cases hfit
  rw [if_neg hres] at hfit
  have hfit2 : fit_px w h (cmToPx tw 300) (cmToPx th 300) = (nw, nh) := by
    injection hfit
  set W := cmToPx tw 300 with hWdef
  set H := cmToPx th 300 with hHdef
  have hWnn : (0:ℤ) ≤ W := by
    rw [hWdef]
    unfold cmToPx
    rw [pyInt_eq_floor _ hq_tw]
    exact Int.floor_nonneg.mpr hq_tw
  have hWle : (W : ℚ) ≤ tw * 300 / 2.54 := by
    rw [hWdef]
    unfold cmToPx
    rw [pyInt_eq_floor _ hq_tw]
    exact Int.floor_le _
  have hHnn : (0:ℤ) ≤ H := by
    rw [hHdef]
    unfold cmToPx
    rw [pyInt_eq_floor _ hq_th]
    exact Int.floor_nonneg.mpr hq_th
  have hHle : (H : ℚ) ≤ th * 300 / 2.54 := by
    rw [hHdef]
    unfold cmToPx
    rw [pyInt_eq_floor _ hq_th]
    exact Int.floor_le _
  have hHpos : (0:ℤ) < H := lt_of_le_of_ne hHnn (Ne.symm hH0)
  have hHQ : (0:ℚ) < (H:ℚ) := by exact_mod_cast hHpos
  have hWQnn : (0:ℚ) ≤ (W:ℚ) := by exact_mod_cast hWnn
  have conv : ∀ (X : ℤ) (t : ℚ),
      (X:ℚ) ≤ t * 300 / 2.54 → (X:ℚ) * 2.54 / 300 ≤ t := by
    intro X t hX
    rw [le_div_iff₀ (by norm_num : (0:ℚ) < 2.54)] at hX
    rw [div_le_iff₀ (by norm_num : (0:ℚ) < 300)]
    linarith
  unfold fit_px at hfit2
  split_ifs at hfit2 with hasp
  · -- source relatively wider: new width is the full box width
    have hnw : W = nw := congrArg Prod.fst hfit2
    have hnh : pyInt ((W:ℚ) / ((w:ℚ) / (h:ℚ))) = nh := congrArg Prod.snd hfit2
    subst hnw
    have hq1 : (W:ℚ) / ((w:ℚ) / (h:ℚ)) = (W:ℚ) * h / w :=
      div_div_eq_mul_div _ _ _
    have hq1nn : (0:ℚ) ≤ (W:ℚ) / ((w:ℚ) / (h:ℚ)) := by
      rw [hq1]
      exact div_nonneg (mul_nonneg hWQnn hhQ.le) hwQ.le
    have hnh2 : nh = ⌊(W:ℚ) * h / w⌋ := by
      rw [← hnh, pyInt_eq_floor _ hq1nn, hq1]
    have hWh_lt : (W:ℚ) * h < (w:ℚ) * H := (div_lt_div_iff₀ hHQ hhQ).mp hasp
    have hq1ltH : (W:ℚ) * h / w < (H:ℚ) := by
      rw [div_lt_iff₀ hwQ]
      exact lt_of_lt_of_eq hWh_lt (mul_comm _ _)
    have hnhleH : nh ≤ H := by
      rw [hnh2]
      have hfl : ⌊(W:ℚ) * h / w⌋ < H := Int.floor_lt.mpr hq1ltH
      omega
    have hnhQleH : ((nh:ℚ)) ≤ (H:ℚ) := by exact_mod_cast hnhleH
    refine ⟨conv W tw hWle, conv nh th (le_trans hnhQleH hHle), ?_⟩
    have hfl1 : ((nh:ℚ)) ≤ (W:ℚ) * h / w := by
      rw [hnh2]
      exact Int.floor_le _
    have hfl2 : (W:ℚ) * h / w < (nh:ℚ) + 1 := by
      rw [hnh2]
      exact Int.lt_floor_add_one _
    have e1 : (nh:ℚ) * w ≤ (W:ℚ) * h := by
      rw [le_div_iff₀ hwQ] at hfl1
      exact hfl1
    have e2 : (W:ℚ) * h < ((nh:ℚ) + 1) * w := by
      rw [div_lt_iff₀ hwQ] at hfl2
      exact hfl2
    have e1z : nh * (w:ℤ) ≤ W * (h:ℤ) := by exact_mod_cast e1
    have e2z : W * (h:ℤ) < (nh + 1) * (w:ℤ) := by exact_mod_cast e2
    have h0 : (0:ℤ) ≤ W * (h:ℤ) - nh * w := by linarith
    have h1 : W * (h:ℤ) - nh * (w:ℤ) < (w:ℤ) := by
      have hring : (nh + 1) * (w:ℤ) = nh * w + w := by ring
      linarith
    have hcast : ((W * (h:ℤ) - nh * w).natAbs : ℤ) = W * (h:ℤ) - nh * w :=
      Int.natAbs_of_nonneg h0
    have hlt : (W * (h:ℤ) - nh * w).natAbs < w := by
      have hx : ((W * (h:ℤ) - nh * w).natAbs : ℤ) < (w:ℤ) := by
        rw [hcast]
        exact h1
      exact_mod_cast hx
    exact lt_of_lt_of_le hlt (le_max_left w h)
  · -- source relatively taller: new height is the full box height
    have hnw : pyInt ((H:ℚ) * ((w:ℚ) / (h:ℚ))) = nw := congrArg Prod.fst hfit2
    have hnh : H = nh := congrArg Prod.snd hfit2
    subst hnh
    have hq2 : (H:ℚ) * ((w:ℚ) / (h:ℚ)) = (H:ℚ) * w / h :=
      (mul_div_assoc _ _ _).symm
    have hq2nn : (0:ℚ) ≤ (H:ℚ) * ((w:ℚ) / (h:ℚ)) := by
      rw [hq2]
      exact div_nonneg (mul_nonneg hHQ.le hwQ.le) hhQ.le
    have hnw2 : nw = ⌊(H:ℚ) * w / h⌋ := by
      rw [← hnw, pyInt_eq_floor _ hq2nn, hq2]
    have hasp2 : (w:ℚ) / h ≤ (W:ℚ) / H := not_lt.mp hasp
    have hwH_le : (w:ℚ) * H ≤ (W:ℚ) * h := (div_le_div_iff₀ hhQ hHQ).mp hasp2
    have hq2leW : (H:ℚ) * w / h ≤ (W:ℚ) := by
      rw [div_le_iff₀ hhQ]
      calc (H:ℚ) * w = (w:ℚ) * H := mul_comm _ _
        _ ≤ (W:ℚ) * h := hwH_le
    have hnwleW : nw ≤ W := by
      rw [hnw2]
      have hx : ((⌊(H:ℚ) * w / h⌋ : ℤ) : ℚ) ≤ (W:ℚ) :=
        le_trans (Int.floor_le _) hq2leW
      exact_mod_cast hx
    have hnwQleW : ((nw:ℚ)) ≤ (W:ℚ) := by exact_mod_cast hnwleW
    refine ⟨conv nw tw (le_trans hnwQleW hWle), conv H th hHle, ?_⟩
    have hfl1 : ((nw:ℚ)) ≤ (H:ℚ) * w / h := by
      rw [hnw2]
      exact Int.floor_le _
    have hfl2 : (H:ℚ) * w / h < (nw:ℚ) + 1 := by
      rw [hnw2]
      exact Int.lt_floor_add_one _
    have e1 : (nw:ℚ) * h ≤ (H:ℚ) * w := by
      rw [le_div_iff₀ hhQ] at hfl1
      exact hfl1
    have e2 : (H:ℚ) * w < ((nw:ℚ) + 1) * h := by
      rw [div_lt_iff₀ hhQ] at hfl2
      exact hfl2
    have e1z : nw * (h:ℤ) ≤ H * (w:ℤ) := by exact_mod_cast e1
    have e2z : H * (w:ℤ) < (nw + 1) * (h:ℤ) := by exact_mod_cast e2
    have h0 : (0:ℤ) ≤ H * (w:ℤ) - nw * h := by linarith
    have h1 : H * (w:ℤ) - nw * (h:ℤ) < (h:ℤ) := by
      have hring : (nw + 1) * (h:ℤ) = nw * h + h := by ring
      linarith
    have hneg : nw * (h:ℤ) - H * (w:ℤ) = -(H * (w:ℤ) - nw * h) := by ring
    rw [hneg, Int.natAbs_neg]
    have hcast : ((H * (w:ℤ) - nw * h).natAbs : ℤ) = H * (w:ℤ) - nw * h :=
      Int.natAbs_of_nonneg h0
    have hlt : (H * (w:ℤ) - nw * h).natAbs < h := by
      have hx : ((H * (w:ℤ) - nw * h).natAbs : ℤ) < (h:ℤ) := by
        rw [hcast]
        exact h1
      exact_mod_cast hx
    exact lt_of_lt_of_le hlt (le_max_right w h)

/-- Witness for C2 at a 200 by 100 source in a 1 cm square box: the box is
118 pixels, the fit is 118 by 59 pixels, inside the box with exact 2:1
ratio. -/
theorem c2_witness :
    ((118:ℤ):ℚ) * 2.54 / 300 ≤ (1:ℚ)
      ∧ ((59:ℤ):ℚ) * 2.54 / 300 ≤ (1:ℚ)
      ∧ (((118:ℤ) * 100 - 59 * 200).natAbs < max 200 100) := by
  have h := c2_fit_bounds 200 100 1 1 118 59 (by norm_num) (by norm_num)
    (by norm_num) (by norm_num)
    (by norm_num [process_uploaded_logo, cmToPx, fit_px, pyInt,
      ratFloor_eq_intFloor])
  exact_mod_cast h

end StickerLabel
